import Mathlib

/-!
Shallow embedding of the civvi server core: the in-memory storage layer
(`MemStorage` in `server/storage.ts`), the password hashing helpers of the
auth module, and the route handlers the claims refer to
(`server/routes.ts`).  JavaScript `Map`s are modelled as association lists
in insertion order, timestamps as natural numbers, and the external
`scrypt` key-derivation function as an explicit parameter.
-/

namespace Civvi

/-! ## JavaScript `Map` model

Entries are kept in insertion order, mirroring `Map` iteration.  `mapSet`
replaces the value of an existing key in place and otherwise appends;
`mapDelete` removes the entry of a key; `mapValues` is
`Array.from(m.values())`. -/

def mapGet {α : Type} (m : List (Nat × α)) (k : Nat) : Option α :=
  match m with
  | [] => none
  | (k', v') :: t => if k' = k then some v' else mapGet t k

def mapSet {α : Type} (m : List (Nat × α)) (k : Nat) (v : α) : List (Nat × α) :=
  match m with
  | [] => [(k, v)]
  | (k', v') :: t => if k' = k then (k, v) :: t else (k', v') :: mapSet t k v

def mapDelete {α : Type} (m : List (Nat × α)) (k : Nat) : List (Nat × α) :=
  match m with
  | [] => []
  | (k', v') :: t => if k' = k then t else (k', v') :: mapDelete t k

def mapValues {α : Type} (m : List (Nat × α)) : List α :=
  m.map Prod.snd

/-! ## Entities (shared/schema.ts)

Usernames and passwords are kept as character lists because the auth code
inspects them character by character; `name`, `bio` and `interests` of a
user are `Option String` because the profile route can (and does) store
the JavaScript value `undefined` in them. -/

structure User where
  id : Nat
  username : List Char
  password : List Char
  name : Option String
  email : String
  bio : Option String
  interests : Option String
  points : Nat
  isOrganizer : Bool
  createdAt : Nat
  deriving DecidableEq

structure Organization where
  id : Nat
  userId : Nat
  name : String
  description : String
  website : String
  email : String
  categories : String
  followers : Nat
  deriving DecidableEq

structure Event where
  id : Nat
  organizerId : Nat
  organizationId : Nat
  title : String
  description : String
  date : Nat
  location : String
  pointsValue : Nat
  status : String
  createdAt : Nat
  deriving DecidableEq

structure EventParticipant where
  id : Nat
  eventId : Nat
  userId : Nat
  status : String
  createdAt : Nat
  deriving DecidableEq

structure SavedOrganization where
  id : Nat
  userId : Nat
  organizationId : Nat
  createdAt : Nat
  deriving DecidableEq

structure InsertSavedOrganization where
  userId : Nat
  organizationId : Nat
  deriving DecidableEq

structure InsertEventParticipant where
  eventId : Nat
  userId : Nat
  status : String
  deriving DecidableEq

/-- A `Partial<User>` value.  The outer `Option` records whether the key is
present at all; for the fields whose stored value can itself be
`undefined` the inner `Option` is that value.  A present key always
overwrites on merge, exactly like the object spread `{...user, ...data}`. -/
structure UserPatch where
  id : Option Nat := none
  username : Option (List Char) := none
  password : Option (List Char) := none
  name : Option (Option String) := none
  email : Option String := none
  bio : Option (Option String) := none
  interests : Option (Option String) := none
  points : Option Nat := none
  isOrganizer : Option Bool := none
  createdAt : Option Nat := none
  deriving DecidableEq

/-- A `Partial<Organization>` value (keys present or absent; JSON bodies
cannot carry `undefined`, so present keys have real values). -/
structure OrgPatch where
  id : Option Nat := none
  userId : Option Nat := none
  name : Option String := none
  description : Option String := none
  website : Option String := none
  email : Option String := none
  categories : Option String := none
  followers : Option Nat := none
  deriving DecidableEq

/-- A `Partial<Event>` value. -/
structure EventPatch where
  id : Option Nat := none
  organizerId : Option Nat := none
  organizationId : Option Nat := none
  title : Option String := none
  description : Option String := none
  date : Option Nat := none
  location : Option String := none
  pointsValue : Option Nat := none
  status : Option String := none
  createdAt : Option Nat := none
  deriving DecidableEq

/-- The five keyed collections and id counters of `MemStorage`. -/
structure State where
  usersMap : List (Nat × User)
  organizationsMap : List (Nat × Organization)
  eventsMap : List (Nat × Event)
  eventParticipantsMap : List (Nat × EventParticipant)
  savedOrganizationsMap : List (Nat × SavedOrganization)
  userIdCounter : Nat
  orgIdCounter : Nat
  eventIdCounter : Nat
  eventParticipantIdCounter : Nat
  savedOrgIdCounter : Nat
  deriving DecidableEq

/-- The freshly constructed `MemStorage` (all maps empty, counters 1). -/
def emptyState : State :=
  { usersMap := [], organizationsMap := [], eventsMap := [],
    eventParticipantsMap := [], savedOrganizationsMap := [],
    userIdCounter := 1, orgIdCounter := 1, eventIdCounter := 1,
    eventParticipantIdCounter := 1, savedOrgIdCounter := 1 }

/-! ## Storage operations (server/storage.ts, class MemStorage) -/

def getUser (st : State) (id : Nat) : Option User :=
  mapGet st.usersMap id

/-- `getUserByUsername`: first user whose username matches
case-insensitively. -/
def getUserByUsername (st : State) (username : List Char) : Option User :=
  (mapValues st.usersMap).find?
    (fun user => user.username.map Char.toLower == username.map Char.toLower)

/-- The object spread `{...user, ...userData}`: every key present in the
patch overwrites, keys absent from the patch keep the stored value. -/
def mergeUser (user : User) (p : UserPatch) : User :=
  { id := p.id.getD user.id
    username := p.username.getD user.username
    password := p.password.getD user.password
    name := p.name.getD user.name
    email := p.email.getD user.email
    bio := p.bio.getD user.bio
    interests := p.interests.getD user.interests
    points := p.points.getD user.points
    isOrganizer := p.isOrganizer.getD user.isOrganizer
    createdAt := p.createdAt.getD user.createdAt }

def updateUser (st : State) (id : Nat) (userData : UserPatch) :
    Option User × State :=
  match mapGet st.usersMap id with
  | none => (none, st)
  | some user =>
    let updatedUser := mergeUser user userData
    (some updatedUser, { st with usersMap := mapSet st.usersMap id updatedUser })

def getOrganization (st : State) (id : Nat) : Option Organization :=
  mapGet st.organizationsMap id

def mergeOrg (org : Organization) (p : OrgPatch) : Organization :=
  { id := p.id.getD org.id
    userId := p.userId.getD org.userId
    name := p.name.getD org.name
    description := p.description.getD org.description
    website := p.website.getD org.website
    email := p.email.getD org.email
    categories := p.categories.getD org.categories
    followers := p.followers.getD org.followers }

def updateOrganization (st : State) (id : Nat) (orgData : OrgPatch) :
    Option Organization × State :=
  match mapGet st.organizationsMap id with
  | none => (none, st)
  | some org =>
    let updatedOrg := mergeOrg org orgData
    (some updatedOrg,
     { st with organizationsMap := mapSet st.organizationsMap id updatedOrg })

def getEvent (st : State) (id : Nat) : Option Event :=
  mapGet st.eventsMap id

/-- Insertion of an event into `events.sort((a, b) => a.date - b.date)`
output: a stable ascending insertion (strictly earlier dates stay in
front, equal dates keep original order). -/
def insertByDate (e : Event) : List Event → List Event
  | [] => [e]
  | f :: rest => if e.date < f.date then e :: f :: rest else f :: insertByDate e rest

/-- The comparator sort `.sort((a, b) => a.date - b.date)` as a stable
insertion sort. -/
def sortByDate (l : List Event) : List Event :=
  l.foldr insertByDate []

/-- `getUpcomingEvents`: filter `new Date(event.date) > now`, then sort
ascending by date.  `now` is the clock reading at call time. -/
def getUpcomingEvents (st : State) (now : Nat) : List Event :=
  sortByDate ((mapValues st.eventsMap).filter (fun event => now < event.date))

def mergeEvent (event : Event) (p : EventPatch) : Event :=
  { id := p.id.getD event.id
    organizerId := p.organizerId.getD event.organizerId
    organizationId := p.organizationId.getD event.organizationId
    title := p.title.getD event.title
    description := p.description.getD event.description
    date := p.date.getD event.date
    location := p.location.getD event.location
    pointsValue := p.pointsValue.getD event.pointsValue
    status := p.status.getD event.status
    createdAt := p.createdAt.getD event.createdAt }

def updateEvent (st : State) (id : Nat) (eventData : EventPatch) :
    Option Event × State :=
  match mapGet st.eventsMap id with
  | none => (none, st)
  | some event =>
    let updatedEvent := mergeEvent event eventData
    (some updatedEvent,
     { st with eventsMap := mapSet st.eventsMap id updatedEvent })

def addEventParticipant (st : State) (now : Nat)
    (participant : InsertEventParticipant) : EventParticipant × State :=
  let id := st.eventParticipantIdCounter
  let eventParticipant : EventParticipant :=
    { id := id, eventId := participant.eventId, userId := participant.userId,
      status := participant.status, createdAt := now }
  (eventParticipant,
   { st with
     eventParticipantIdCounter := id + 1,
     eventParticipantsMap := mapSet st.eventParticipantsMap id eventParticipant })

def getEventParticipants (st : State) (eventId : Nat) : List EventParticipant :=
  (mapValues st.eventParticipantsMap).filter
    (fun participant => participant.eventId == eventId)

/-- `saveOrganization`: insert the join row, then increment the target
organization's follower counter when the organization exists. -/
def saveOrganization (st : State) (now : Nat) (savedOrg : InsertSavedOrganization) :
    SavedOrganization × State :=
  let id := st.savedOrgIdCounter
  let st1 := { st with savedOrgIdCounter := id + 1 }
  let savedOrganization : SavedOrganization :=
    { id := id, userId := savedOrg.userId,
      organizationId := savedOrg.organizationId, createdAt := now }
  let st2 := { st1 with
    savedOrganizationsMap := mapSet st1.savedOrganizationsMap id savedOrganization }
  match getOrganization st2 savedOrg.organizationId with
  | some org =>
    (savedOrganization,
     (updateOrganization st2 org.id { followers := some (org.followers + 1) }).2)
  | none => (savedOrganization, st2)

/-- `unsaveOrganization`: delete the first matching join row (if any) and
decrement the organization's follower counter when it exists and the
counter is positive. -/
def unsaveOrganization (st : State) (userId organizationId : Nat) : State :=
  match (mapValues st.savedOrganizationsMap).find?
      (fun saved => saved.userId == userId && saved.organizationId == organizationId) with
  | none => st
  | some savedOrg =>
    let st1 := { st with
      savedOrganizationsMap := mapDelete st.savedOrganizationsMap savedOrg.id }
    match getOrganization st1 organizationId with
    | some org =>
      if org.followers > 0 then
        (updateOrganization st1 org.id { followers := some (org.followers - 1) }).2
      else st1
    | none => st1

/-! ## Auth module (hashPassword / comparePasswords / LocalStrategy)

`scrypt` is an external key-derivation function; it appears as an explicit
parameter `kdf` mapping a password and a salt (the hex salt string, as the
code passes it) to a byte buffer.  The random 16-byte salt of
`hashPassword` is likewise passed in, already hex encoded. -/

/-- A byte of a Node `Buffer`. -/
abbrev Byte := Fin 256

/-- The lower-case hex digit for a value below 16 (`Buffer.toString("hex")`
emits lower-case digits). -/
def hexChar (n : Nat) : Char :=
  if n < 10 then Char.ofNat (48 + n) else Char.ofNat (87 + n)

def byteToHex (b : Byte) : List Char :=
  [hexChar (b.val / 16), hexChar (b.val % 16)]

/-- `buf.toString("hex")`. -/
def toHex : List Byte → List Char
  | [] => []
  | b :: rest => byteToHex b ++ toHex rest

/-- The numeric value of one hex digit (`Buffer.from(_, "hex")` accepts
both cases). -/
def hexVal (c : Char) : Option Nat :=
  let n := c.toNat
  if 48 ≤ n ∧ n ≤ 57 then some (n - 48)
  else if 97 ≤ n ∧ n ≤ 102 then some (n - 87)
  else if 65 ≤ n ∧ n ≤ 70 then some (n - 55)
  else none

/-- `Buffer.from(s, "hex")`: decode hex pairs, truncating at the first
invalid or unpaired character. -/
def fromHex : List Char → List Byte
  | c1 :: c2 :: rest =>
    match hexVal c1, hexVal c2 with
    | some h, some l => ⟨(16 * h + l) % 256, Nat.mod_lt _ (by omega)⟩ :: fromHex rest
    | _, _ => []
  | _ => []

/-- `s.split(".")` for the single-character separator used by the auth
module. -/
def splitDot : List Char → List (List Char)
  | [] => [[]]
  | c :: rest =>
    let r := splitDot rest
    if c = '.' then [] :: r
    else
      match r with
      | [] => [[c]]
      | h :: t => (c :: h) :: t

/-- `crypto.timingSafeEqual`: throws when the buffers differ in length,
otherwise compares their contents. -/
def timingSafeEqual (a b : List Byte) : Except String Bool :=
  if a.length = b.length then Except.ok (decide (a = b))
  else Except.error "Input buffers must have the same byte length"

/-- `hashPassword`: reject the empty password, otherwise store
`<hex derived key>.<hex salt>`. -/
def hashPassword (kdf : List Char → List Char → List Byte)
    (salt password : List Char) : Except String (List Char) :=
  if password = [] then Except.error "Password cannot be empty"
  else Except.ok (toHex (kdf password salt) ++ '.' :: salt)

/-- `comparePasswords`, instrumented: the second component counts how many
times the scrypt key derivation was invoked on this call (0 when an early
`return false` fires, 1 once `scryptAsync` runs). -/
def comparePasswordsT (kdf : List Char → List Char → List Byte)
    (supplied stored : List Char) : Except String Bool × Nat :=
  if supplied = [] ∨ stored = [] then (Except.ok false, 0)
  else
    let parts := splitDot stored
    let hashed := parts.headD []
    let salt := (parts.drop 1).headD []
    if hashed = [] ∨ salt = [] then (Except.ok false, 0)
    else
      let hashedBuf := fromHex hashed
      let suppliedBuf := kdf supplied salt
      (timingSafeEqual hashedBuf suppliedBuf, 1)

def comparePasswords (kdf : List Char → List Char → List Byte)
    (supplied stored : List Char) : Except String Bool :=
  (comparePasswordsT kdf supplied stored).1

/-- The `LocalStrategy` verify callback: look the user up by username and,
only if one was found, compare passwords (the `!user || !(await
comparePasswords(...))` disjunction short-circuits).  Returns the
authenticated user (`Except.ok (some u)`), an authentication failure
(`Except.ok none`), or a passed-through error, paired with the number of
key derivations performed. -/
def localStrategyVerify (kdf : List Char → List Char → List Byte)
    (st : State) (username password : List Char) :
    Except String (Option User) × Nat :=
  match getUserByUsername st username with
  | none => (Except.ok none, 0)
  | some user =>
    match comparePasswordsT kdf password user.password with
    | (Except.ok true, n) => (Except.ok (some user), n)
    | (Except.ok false, n) => (Except.ok none, n)
    | (Except.error e, n) => (Except.error e, n)

/-! ## Route handlers (server/routes.ts) -/

/-- A user as serialized to the client: `delete userResponse.password`. -/
structure PublicUser where
  id : Nat
  username : List Char
  name : Option String
  email : String
  bio : Option String
  interests : Option String
  points : Nat
  isOrganizer : Bool
  createdAt : Nat
  deriving DecidableEq

def toPublicUser (u : User) : PublicUser :=
  { id := u.id, username := u.username, name := u.name, email := u.email,
    bio := u.bio, interests := u.interests, points := u.points,
    isOrganizer := u.isOrganizer, createdAt := u.createdAt }

/-- Outcome of `POST /api/events/:id/register`. -/
inductive RegisterResult where
  | unauthorized
  | notFound (message : String)
  | badRequest (message : String)
  | created (participant : EventParticipant)
  deriving DecidableEq

/-- `POST /api/events/:id/register`: 401 without a session, 404 for an
unknown event, 400 when the user already appears among the event's
participants, otherwise insert a `"registered"` participant row. -/
def registerForEvent (st : State) (now : Nat) (auth : Option User)
    (eventId : Nat) : RegisterResult × State :=
  match auth with
  | none => (RegisterResult.unauthorized, st)
  | some user =>
    match getEvent st eventId with
    | none => (RegisterResult.notFound "Event not found", st)
    | some _ =>
      let participants := getEventParticipants st eventId
      if participants.any (fun p => p.userId == user.id) then
        (RegisterResult.badRequest "Already registered for this event", st)
      else
        let r := addEventParticipant st now
          { eventId := eventId, userId := user.id, status := "registered" }
        (RegisterResult.created r.1, r.2)

/-- Outcome of `PUT /api/organizations/:id`. -/
inductive PutOrgResult where
  | unauthorized
  | notFound (message : String)
  | forbidden (message : String)
  | ok (org : Option Organization)
  deriving DecidableEq

/-- `PUT /api/organizations/:id`: after the ownership check the request
body is handed to `updateOrganization` unfiltered. -/
def putOrganization (st : State) (auth : Option User) (id : Nat)
    (body : OrgPatch) : PutOrgResult × State :=
  match auth with
  | none => (PutOrgResult.unauthorized, st)
  | some user =>
    match getOrganization st id with
    | none => (PutOrgResult.notFound "Organization not found", st)
    | some organization =>
      if organization.userId ≠ user.id then
        (PutOrgResult.forbidden "Not authorized to update this organization", st)
      else
        let r := updateOrganization st id body
        (PutOrgResult.ok r.1, r.2)

/-- Outcome of `PUT /api/user/profile`. -/
inductive ProfileResult where
  | unauthorized
  | notFound (message : String)
  | ok (user : PublicUser)
  deriving DecidableEq

/-- `PUT /api/user/profile`: builds the patch object literal
`{name: req.body.name, bio: req.body.bio, interests: req.body.interests}`,
whose three keys are always present — with value `undefined` when the JSON
body omitted the field. -/
def putUserProfile (st : State) (auth : Option User)
    (bodyName bodyBio bodyInterests : Option String) : ProfileResult × State :=
  match auth with
  | none => (ProfileResult.unauthorized, st)
  | some user =>
    let r := updateUser st user.id
      { name := some bodyName, bio := some bodyBio, interests := some bodyInterests }
    match r.1 with
    | none => (ProfileResult.notFound "User not found", r.2)
    | some updatedUser => (ProfileResult.ok (toPublicUser updatedUser), r.2)

/-! ## Invariants and operation sequences -/

/-- Number of SavedOrganization rows in a collection referencing an
organization id. -/
def countRowsIn (s : List (Nat × SavedOrganization)) (orgId : Nat) : Nat :=
  ((mapValues s).filter (fun r => r.organizationId == orgId)).length

/-- Number of live SavedOrganization rows referencing an organization id. -/
abbrev countSavedRows (st : State) (orgId : Nat) : Nat :=
  countRowsIn st.savedOrganizationsMap orgId

/-- The spec invariant: every organization's `followers` equals the number
of live SavedOrganization rows referencing it. -/
abbrev followersInvariant (st : State) : Prop :=
  ∀ p ∈ st.organizationsMap, (p : Nat × Organization).2.followers = countSavedRows st p.2.id

/-- Representation well-formedness of the organizations map: every value
carries its key as its `id`, and keys are distinct. -/
abbrev orgsCoherent (st : State) : Prop :=
  (∀ p ∈ st.organizationsMap, (p : Nat × Organization).2.id = p.1)
    ∧ (st.organizationsMap.map Prod.fst).Nodup

/-- Representation well-formedness of the saved-organizations map: values
carry their keys as ids, keys are distinct, and all keys are below the id
counter (so the next assigned id is fresh). -/
abbrev savedCoherent (st : State) : Prop :=
  (∀ p ∈ st.savedOrganizationsMap, (p : Nat × SavedOrganization).2.id = p.1)
    ∧ (st.savedOrganizationsMap.map Prod.fst).Nodup
    ∧ ∀ p ∈ st.savedOrganizationsMap, (p : Nat × SavedOrganization).1 < st.savedOrgIdCounter

/-- Representation invariant of `MemStorage` relevant to save/unsave. -/
abbrev stateWF (st : State) : Prop :=
  orgsCoherent st ∧ savedCoherent st

/-- One follow/unfollow call. -/
inductive SaveOp where
  | save (now userId organizationId : Nat)
  | unsave (userId organizationId : Nat)
  deriving DecidableEq

def applyOp (st : State) : SaveOp → State
  | SaveOp.save now u o => (saveOrganization st now { userId := u, organizationId := o }).2
  | SaveOp.unsave u o => unsaveOrganization st u o

/-- The caller-enforced preconditions: a save targets an existing
organization and a pair not currently saved; an unsave is unconstrained. -/
def opPre (st : State) : SaveOp → Prop
  | SaveOp.save _ u o =>
    (getOrganization st o).isSome = true
      ∧ ∀ r ∈ mapValues st.savedOrganizationsMap, ¬(r.userId = u ∧ r.organizationId = o)
  | SaveOp.unsave _ _ => True

/-- Every operation of the sequence satisfies its precondition in the
state it runs in. -/
def opsValid : State → List SaveOp → Prop
  | _, [] => True
  | st, op :: rest => opPre st op ∧ opsValid (applyOp st op) rest

/-- The SavedOrganization row a `saveOrganization` call inserts. -/
def newSavedRow (st : State) (now u o : Nat) : SavedOrganization :=
  { id := st.savedOrgIdCounter, userId := u, organizationId := o, createdAt := now }

/-! ## Concrete fixtures used by witnesses and counterexamples -/

/-- A concrete stand-in for the external scrypt function, used only to
instantiate theorems at concrete inputs. -/
def kdfDemo (password salt : List Char) : List Byte :=
  (password ++ salt).map (fun c => (⟨c.toNat % 256, Nat.mod_lt _ (by omega)⟩ : Byte))

def aliceSalt : List Char := ['s', 't']

def alicePassword : List Char := ['p']

def aliceUser : User :=
  { id := 1, username := ['a', 'l', 'i', 'c', 'e'],
    password := toHex (kdfDemo alicePassword aliceSalt) ++ '.' :: aliceSalt,
    name := some "Alice", email := "alice@example.com", bio := some "",
    interests := some "", points := 0, isOrganizer := true, createdAt := 0 }

def bobUser : User :=
  { id := 2, username := ['b', 'o', 'b'], password := ['x'],
    name := some "Bob", email := "bob@example.com", bio := some "",
    interests := some "", points := 0, isOrganizer := false, createdAt := 0 }

def greenEarthOrg : Organization :=
  { id := 1, userId := 1, name := "Green Earth", description := "",
    website := "", email := "", categories := "", followers := 0 }

def demoEvent : Event :=
  { id := 1, organizerId := 1, organizationId := 1, title := "Cleanup",
    description := "", date := 100, location := "", pointsValue := 20,
    status := "upcoming", createdAt := 0 }

def demoParticipant : EventParticipant :=
  { id := 1, eventId := 1, userId := 2, status := "registered", createdAt := 0 }

/-- A populated store: alice (organizer) with her organization, bob, one
event, and bob registered for it. -/
def demoState : State :=
  { usersMap := [(1, aliceUser), (2, bobUser)],
    organizationsMap := [(1, greenEarthOrg)],
    eventsMap := [(1, demoEvent)],
    eventParticipantsMap := [(1, demoParticipant)],
    savedOrganizationsMap := [],
    userIdCounter := 3, orgIdCounter := 2, eventIdCounter := 2,
    eventParticipantIdCounter := 2, savedOrgIdCounter := 1 }

def demoSavedRow : SavedOrganization :=
  { id := 1, userId := 2, organizationId := 1, createdAt := 10 }

/-- The demo store after bob has followed Green Earth. -/
def demoStateSaved : State :=
  { demoState with
    organizationsMap := [(1, { greenEarthOrg with followers := 1 })],
    savedOrganizationsMap := [(1, demoSavedRow)],
    savedOrgIdCounter := 2 }

/-! ## Lemmas about the map model -/

theorem mapGet_eq_none {α : Type} {m : List (Nat × α)} {k : Nat} :
    mapGet m k = none ↔ ∀ p ∈ m, (p : Nat × α).1 ≠ k := by
  induction m with
  | nil => simp [mapGet]
  | cons p t ih =>
    obtain ⟨k', v'⟩ := p
    by_cases h : k' = k
    · subst h
      simp [mapGet]
    · simp [mapGet, h, ih]

theorem mapGet_some_mem {α : Type} {m : List (Nat × α)} {k : Nat} {v : α}
    (h : mapGet m k = some v) : (k, v) ∈ m := by
  induction m with
  | nil => simp [mapGet] at h
  | cons p t ih =>
    obtain ⟨k', v'⟩ := p
    by_cases hk : k' = k
    · subst hk
      simp [mapGet] at h
      subst h
      exact List.mem_cons_self _ _
    · simp [mapGet, hk] at h
      exact List.mem_cons_of_mem _ (ih h)

theorem mapSet_fresh {α : Type} {m : List (Nat × α)} {k : Nat} {v : α}
    (h : ∀ p ∈ m, (p : Nat × α).1 ≠ k) : mapSet m k v = m ++ [(k, v)] := by
  induction m with
  | nil => simp [mapSet]
  | cons p t ih =>
    obtain ⟨k', v'⟩ := p
    have hk : k' ≠ k := h (k', v') (List.mem_cons_self _ _)
    simp [mapSet, hk]
    exact ih (fun p hp => h p (List.mem_cons_of_mem _ hp))

theorem mapGet_mapSet {α : Type} {m : List (Nat × α)} {k k' : Nat} {v : α} :
    mapGet (mapSet m k v) k' = if k' = k then some v else mapGet m k' := by
  induction m with
  | nil =>
    by_cases h : k' = k
    · subst h
      simp [mapSet, mapGet]
    · simp [mapSet, mapGet, h, Ne.symm h]
  | cons p t ih =>
    obtain ⟨k0, v0⟩ := p
    by_cases h0 : k0 = k
    · subst h0
      by_cases h : k' = k0
      · subst h
        simp [mapSet, mapGet]
      · simp [mapSet, mapGet, h, Ne.symm h]
    · by_cases h : k' = k0
      · subst h
        simp [mapSet, mapGet, h0, Ne.symm h0, ih]
      · simp [mapSet, mapGet, h0, h, Ne.symm h, ih]

theorem mem_mapSet_of_nodup {α : Type} {m : List (Nat × α)} {k : Nat} {v : α}
    {p : Nat × α} (hnd : (m.map Prod.fst).Nodup) (hp : p ∈ mapSet m k v) :
    p = (k, v) ∨ (p ∈ m ∧ p.1 ≠ k) := by
  induction m with
  | nil =>
    simp [mapSet] at hp
    exact Or.inl hp
  | cons q t ih =>
    obtain ⟨k0, v0⟩ := q
    simp only [List.map_cons, List.nodup_cons] at hnd
    by_cases h0 : k0 = k
    · subst h0
      simp only [mapSet, if_pos rfl] at hp
      rcases List.mem_cons.mp hp with heq | hmem
      · exact Or.inl heq
      · refine Or.inr ⟨List.mem_cons_of_mem _ hmem, ?_⟩
        intro hk
        exact hnd.1 (hk ▸ List.mem_map_of_mem Prod.fst hmem)
    · simp only [mapSet, if_neg h0] at hp
      rcases List.mem_cons.mp hp with heq | hmem
      · subst heq
        exact Or.inr ⟨List.mem_cons_self _ _, h0⟩
      · rcases ih hnd.2 hmem with h | ⟨h1, h2⟩
        · exact Or.inl h
        · exact Or.inr ⟨List.mem_cons_of_mem _ h1, h2⟩

theorem mem_mapSet_of_ne {α : Type} {m : List (Nat × α)} {k : Nat} {v : α}
    {p : Nat × α} (hp : p ∈ m) (hne : p.1 ≠ k) : p ∈ mapSet m k v := by
  induction m with
  | nil => cases hp
  | cons q t ih =>
    obtain ⟨k0, v0⟩ := q
    by_cases h0 : k0 = k
    · subst h0
      simp only [mapSet, if_pos rfl]
      rcases List.mem_cons.mp hp with heq | hmem
      · exact absurd (heq ▸ rfl : p.1 = k0) hne
      · exact List.mem_cons_of_mem _ hmem
    · simp only [mapSet, if_neg h0]
      rcases List.mem_cons.mp hp with heq | hmem
      · exact heq ▸ List.mem_cons_self _ _
      · exact List.mem_cons_of_mem _ (ih hmem)

theorem keys_mapSet_of_mem {α : Type} {m : List (Nat × α)} {k : Nat} {v : α}
    (h : k ∈ m.map Prod.fst) : (mapSet m k v).map Prod.fst = m.map Prod.fst := by
  induction m with
  | nil => cases h
  | cons q t ih =>
    obtain ⟨k0, v0⟩ := q
    by_cases h0 : k0 = k
    · subst h0
      simp [mapSet]
    · have : k ∈ t.map Prod.fst := by
        simp only [List.map_cons, List.mem_cons] at h
        rcases h with h | h
        · exact absurd h.symm h0
        · exact h
      simp [mapSet, h0, ih this]

theorem mapDelete_decomp {α : Type} {m : List (Nat × α)} {k : Nat} {v : α}
    (hnd : (m.map Prod.fst).Nodup) (hmem : (k, v) ∈ m) :
    ∃ l1 l2, m = l1 ++ (k, v) :: l2 ∧ mapDelete m k = l1 ++ l2
      ∧ ∀ p ∈ l1, (p : Nat × α).1 ≠ k := by
  induction m with
  | nil => cases hmem
  | cons q t ih =>
    obtain ⟨k0, v0⟩ := q
    simp only [List.map_cons, List.nodup_cons] at hnd
    rcases List.mem_cons.mp hmem with heq | hmem'
    · obtain ⟨hk, hv⟩ := Prod.mk.injEq .. ▸ heq.symm
      subst hk
      subst hv
      exact ⟨[], t, rfl, by simp [mapDelete], by simp⟩
    · have hk : k0 ≠ k := by
        intro h
        subst h
        exact hnd.1 (List.mem_map_of_mem Prod.fst hmem')
      obtain ⟨l1, l2, h1, h2, h3⟩ := ih hnd.2 hmem'
      refine ⟨(k0, v0) :: l1, l2, by simp [h1], by simp [mapDelete, hk, h2], ?_⟩
      intro p hp
      rcases List.mem_cons.mp hp with heq | hmem2
      · exact heq ▸ hk
      · exact h3 p hmem2

/-! ## Claim C4: updates of absent ids -/

/-- C4: for every id absent from the corresponding collection,
`updateUser`, `updateOrganization` and `updateEvent` return the "not
found" signal (`none`) and leave the store entirely unchanged — no record
is ever created by an update. -/
theorem update_absent_id_is_noop (st : State) (id1 id2 id3 : Nat)
    (p1 : UserPatch) (p2 : OrgPatch) (p3 : EventPatch)
    (h1 : mapGet st.usersMap id1 = none)
    (h2 : mapGet st.organizationsMap id2 = none)
    (h3 : mapGet st.eventsMap id3 = none) :
    updateUser st id1 p1 = (none, st)
      ∧ updateOrganization st id2 p2 = (none, st)
      ∧ updateEvent st id3 p3 = (none, st) := by
  refine ⟨?_, ?_, ?_⟩ <;>
    simp [updateUser, updateOrganization, updateEvent, h1, h2, h3]

/-- Witness for C4 at the empty store and id 1. -/
theorem update_absent_id_is_noop_witness :
    updateUser emptyState 1 {} = (none, emptyState)
      ∧ updateOrganization emptyState 1 {} = (none, emptyState)
      ∧ updateEvent emptyState 1 {} = (none, emptyState) :=
  update_absent_id_is_noop emptyState 1 1 1 {} {} {} rfl rfl rfl

/-! ## Claim C3: duplicate event registration -/

/-- C3: when the authenticated user already appears among an existing
event's participants, `POST /api/events/:id/register` answers 400
"Already registered for this event", leaves the store unchanged, and the
participant count of the event stays what it was — in particular at 1. -/
theorem register_twice_rejected (st : State) (now : Nat) (user : User)
    (eventId : Nat) (ev : Event)
    (hev : getEvent st eventId = some ev)
    (hreg : (getEventParticipants st eventId).any (fun p => p.userId == user.id) = true) :
    registerForEvent st now (some user) eventId
        = (RegisterResult.badRequest "Already registered for this event", st)
      ∧ (getEventParticipants (registerForEvent st now (some user) eventId).2 eventId).length
          = (getEventParticipants st eventId).length
      ∧ ((getEventParticipants st eventId).length = 1 →
          (getEventParticipants (registerForEvent st now (some user) eventId).2 eventId).length
            = 1) := by
  have hmain : registerForEvent st now (some user) eventId
      = (RegisterResult.badRequest "Already registered for this event", st) := by
    simp [registerForEvent, hev, hreg]
  exact ⟨hmain, by rw [hmain], fun h => by rw [hmain]; exact h⟩

/-- Witness for C3: bob is already registered for the demo event. -/
theorem register_twice_rejected_witness :
    registerForEvent demoState 50 (some bobUser) 1
        = (RegisterResult.badRequest "Already registered for this event", demoState)
      ∧ (getEventParticipants (registerForEvent demoState 50 (some bobUser) 1).2 1).length
          = (getEventParticipants demoState 1).length
      ∧ ((getEventParticipants demoState 1).length = 1 →
          (getEventParticipants (registerForEvent demoState 50 (some bobUser) 1).2 1).length
            = 1) :=
  register_twice_rejected demoState 50 bobUser 1 demoEvent rfl rfl

/-! ## Claim C6: unsave of a non-saved organization -/

/-- C6: when no SavedOrganization row for `(u, o)` exists,
`unsaveOrganization u o` leaves the store untouched (so no follower count
changes), and a second identical call has the same effect as one. -/
theorem unsave_not_saved_noop (st : State) (u o : Nat)
    (h : ∀ r ∈ mapValues st.savedOrganizationsMap,
      ¬((r : SavedOrganization).userId = u ∧ r.organizationId = o)) :
    unsaveOrganization st u o = st
      ∧ unsaveOrganization (unsaveOrganization st u o) u o = unsaveOrganization st u o := by
  have hfind : (mapValues st.savedOrganizationsMap).find?
      (fun saved => saved.userId == u && saved.organizationId == o) = none := by
    rw [List.find?_eq_none]
    intro x hx
    simp only [Bool.and_eq_true, beq_iff_eq, not_and]
    intro hx1 hx2
    exact h x hx ⟨hx1, hx2⟩
  have h1 : unsaveOrganization st u o = st := by
    simp [unsaveOrganization, hfind]
  exact ⟨h1, by rw [h1]; exact h1⟩

/-- Witness for C6: user 3 never saved organization 1 in the demo store
(bob's row belongs to user 2), so unsaving is a no-op. -/
theorem unsave_not_saved_noop_witness :
    unsaveOrganization demoStateSaved 3 1 = demoStateSaved
      ∧ unsaveOrganization (unsaveOrganization demoStateSaved 3 1) 3 1
          = unsaveOrganization demoStateSaved 3 1 :=
  unsave_not_saved_noop demoStateSaved 3 1 (by decide)

/-! ## Claim C9: saving a non-existent organization -/

/-- C9: when no organization with id `o` exists, `saveOrganization` still
inserts the join row and returns it, incrementing only the saved-row id
counter; the organizations map (hence every followers counter) is left
unchanged. -/
theorem saveOrganization_missing_org (st : State) (now u o : Nat)
    (h : getOrganization st o = none) :
    saveOrganization st now { userId := u, organizationId := o }
        = ({ id := st.savedOrgIdCounter, userId := u, organizationId := o, createdAt := now },
           { st with
             savedOrgIdCounter := st.savedOrgIdCounter + 1,
             savedOrganizationsMap := mapSet st.savedOrganizationsMap st.savedOrgIdCounter
               { id := st.savedOrgIdCounter, userId := u, organizationId := o,
                 createdAt := now } })
      ∧ (saveOrganization st now { userId := u, organizationId := o }).2.organizationsMap
          = st.organizationsMap := by
  simp only [getOrganization] at h
  have hmain : saveOrganization st now { userId := u, organizationId := o }
      = ({ id := st.savedOrgIdCounter, userId := u, organizationId := o, createdAt := now },
         { st with
           savedOrgIdCounter := st.savedOrgIdCounter + 1,
           savedOrganizationsMap := mapSet st.savedOrganizationsMap st.savedOrgIdCounter
             { id := st.savedOrgIdCounter, userId := u, organizationId := o,
               createdAt := now } }) := by
    simp [saveOrganization, getOrganization, h]
  exact ⟨hmain, by rw [hmain]⟩

/-- Witness for C9: organization 7 does not exist in the demo store. -/
theorem saveOrganization_missing_org_witness :
    saveOrganization demoState 60 { userId := 2, organizationId := 7 }
        = ({ id := 1, userId := 2, organizationId := 7, createdAt := 60 },
           { demoState with
             savedOrgIdCounter := 2,
             savedOrganizationsMap :=
               [(1, { id := 1, userId := 2, organizationId := 7, createdAt := 60 })] })
      ∧ (saveOrganization demoState 60 { userId := 2, organizationId := 7 }).2.organizationsMap
          = demoState.organizationsMap :=
  saveOrganization_missing_org demoState 60 2 7 rfl

/-! ## Claim C10: profile update stores undefined for omitted fields -/

/-- C10: a `PUT /api/user/profile` body is turned into a patch whose
`name`, `bio` and `interests` keys are always present, so a field omitted
from the body is overwritten with the `undefined` value (`none`) instead
of keeping its previous value. -/
theorem profile_omitted_field_overwrites (st : State) (user stored : User)
    (bodyName bodyBio bodyInterests : Option String)
    (h : mapGet st.usersMap user.id = some stored) :
    (putUserProfile st (some user) bodyName bodyBio bodyInterests).2.usersMap
        = mapSet st.usersMap user.id
            { stored with name := bodyName, bio := bodyBio, interests := bodyInterests }
      ∧ mapGet (putUserProfile st (some user) bodyName bodyBio bodyInterests).2.usersMap
            user.id
          = some { stored with
              name := bodyName, bio := bodyBio, interests := bodyInterests } := by
  have hmain : (putUserProfile st (some user) bodyName bodyBio bodyInterests).2.usersMap
      = mapSet st.usersMap user.id
          { stored with name := bodyName, bio := bodyBio, interests := bodyInterests } := by
    simp [putUserProfile, updateUser, mergeUser, h]
  refine ⟨hmain, ?_⟩
  rw [hmain, mapGet_mapSet]
  simp

/-- Witness for C10: alice's stored name `some "Alice"` becomes `none`
when the body omits `name`. -/
theorem profile_omitted_field_overwrites_witness :
    (putUserProfile demoState (some aliceUser) none (some "new bio") (some "hiking")).2.usersMap
        = mapSet demoState.usersMap 1
            { aliceUser with
              name := none, bio := some "new bio", interests := some "hiking" }
      ∧ mapGet (putUserProfile demoState (some aliceUser) none (some "new bio")
            (some "hiking")).2.usersMap 1
          = some { aliceUser with
              name := none, bio := some "new bio", interests := some "hiking" } :=
  profile_omitted_field_overwrites demoState aliceUser aliceUser none (some "new bio")
    (some "hiking") rfl

/-! ## Claim C5: upcoming events -/

theorem insertByDate_perm (e : Event) (l : List Event) :
    (insertByDate e l).Perm (e :: l) := by
  induction l with
  | nil => exact List.Perm.refl _
  | cons f rest ih =>
    by_cases h : e.date < f.date
    · simp [insertByDate, h]
    · simp only [insertByDate, if_neg h]
      exact (ih.cons f).trans (List.Perm.swap e f rest)

theorem sortByDate_perm (l : List Event) : (sortByDate l).Perm l := by
  induction l with
  | nil => exact List.Perm.refl _
  | cons e rest ih => exact (insertByDate_perm e _).trans (ih.cons e)

theorem insertByDate_sorted {e : Event} {l : List Event}
    (h : l.Pairwise (fun a b => a.date ≤ b.date)) :
    (insertByDate e l).Pairwise (fun a b => a.date ≤ b.date) := by
  induction l with
  | nil => simp [insertByDate]
  | cons f rest ih =>
    obtain ⟨hf, hrest⟩ := List.pairwise_cons.mp h
    by_cases hc : e.date < f.date
    · simp only [insertByDate, if_pos hc]
      rw [List.pairwise_cons]
      refine ⟨?_, h⟩
      intro x hx
      rcases List.mem_cons.mp hx with rfl | hx'
      · exact Nat.le_of_lt hc
      · exact Nat.le_trans (Nat.le_of_lt hc) (hf x hx')
    · simp only [insertByDate, if_neg hc]
      rw [List.pairwise_cons]
      refine ⟨?_, ih hrest⟩
      intro x hx
      rcases List.mem_cons.mp ((insertByDate_perm e rest).mem_iff.mp hx) with rfl | hx'
      · exact Nat.le_of_not_lt hc
      · exact hf x hx'

theorem sortByDate_sorted (l : List Event) :
    (sortByDate l).Pairwise (fun a b => a.date ≤ b.date) := by
  induction l with
  | nil => simp [sortByDate]
  | cons e rest ih => exact insertByDate_sorted ih

/-- C5: `getUpcomingEvents` returns exactly the stored events whose date
is strictly greater than the clock reading at call time (as a permutation
of the filtered collection), sorted ascending by date; in particular no
event dated at or before that moment appears. -/
theorem getUpcomingEvents_spec (st : State) (now : Nat) :
    (getUpcomingEvents st now).Perm
        ((mapValues st.eventsMap).filter (fun e => now < e.date))
      ∧ (getUpcomingEvents st now).Pairwise (fun a b => a.date ≤ b.date)
      ∧ ∀ e ∈ getUpcomingEvents st now, now < e.date := by
  refine ⟨sortByDate_perm _, sortByDate_sorted _, ?_⟩
  intro e he
  have he' := (sortByDate_perm _).mem_iff.mp he
  simpa using (List.mem_filter.mp he').2

/-! ## Hex encoding and split lemmas for the auth module -/

theorem hexVal_hexChar : ∀ n, n < 16 → hexVal (hexChar n) = some n := by decide

theorem hexChar_ne_dot : ∀ n, n < 16 → hexChar n ≠ '.' := by decide

theorem fromHex_toHex : ∀ bs : List Byte, fromHex (toHex bs) = bs := by
  intro bs
  induction bs with
  | nil => rfl
  | cons b rest ih =>
    have h1 : b.val / 16 < 16 := Nat.div_lt_of_lt_mul (by omega)
    have h2 : b.val % 16 < 16 := Nat.mod_lt _ (by omega)
    have h3 : (16 * (b.val / 16) + b.val % 16) % 256 = b.val := by
      rw [Nat.div_add_mod]
      exact Nat.mod_eq_of_lt b.isLt
    simp only [toHex, byteToHex, List.cons_append, List.nil_append, fromHex,
      hexVal_hexChar _ h1, hexVal_hexChar _ h2, ih]
    refine List.cons_eq_cons.mpr ⟨Fin.ext h3, ?_⟩
    simpa using ih

theorem dot_not_mem_toHex : ∀ bs : List Byte, '.' ∉ toHex bs := by
  intro bs
  induction bs with
  | nil => simp [toHex]
  | cons b rest ih =>
    have h1 : b.val / 16 < 16 := Nat.div_lt_of_lt_mul (by omega)
    have h2 : b.val % 16 < 16 := Nat.mod_lt _ (by omega)
    simp only [toHex, byteToHex, List.cons_append, List.nil_append, List.mem_cons]
    push_neg
    exact ⟨Ne.symm (hexChar_ne_dot _ h1), Ne.symm (hexChar_ne_dot _ h2), ih⟩

theorem toHex_ne_nil {bs : List Byte} (h : bs ≠ []) : toHex bs ≠ [] := by
  cases bs with
  | nil => exact absurd rfl h
  | cons b rest => simp [toHex, byteToHex]

theorem splitDot_no_dot {s : List Char} (h : '.' ∉ s) : splitDot s = [s] := by
  induction s with
  | nil => rfl
  | cons c rest ih =>
    have hc : ¬ c = '.' := by
      intro hh
      exact h (by simp [hh])
    have hrest : '.' ∉ rest := fun hh => h (List.mem_cons_of_mem _ hh)
    simp [splitDot, hc, ih hrest]

theorem splitDot_append {a b : List Char} (h : '.' ∉ a) :
    splitDot (a ++ '.' :: b) = a :: splitDot b := by
  induction a with
  | nil => simp [splitDot]
  | cons c rest ih =>
    have hc : ¬ c = '.' := by
      intro hh
      exact h (by simp [hh])
    have hrest : '.' ∉ rest := fun hh => h (List.mem_cons_of_mem _ hh)
    simp [splitDot, hc, ih hrest]

/-- `comparePasswords` applied to a well-formed stored value
`<hex key>.<salt>` reaches the key-derivation and comparison step. -/
theorem comparePasswordsT_wellformed (kdf : List Char → List Char → List Byte)
    (q : List Char) (k : List Byte) (salt : List Char)
    (hq : q ≠ []) (hs : salt ≠ []) (hdot : '.' ∉ salt) (hk : k ≠ []) :
    comparePasswordsT kdf q (toHex k ++ '.' :: salt)
      = (timingSafeEqual k (kdf q salt), 1) := by
  have h1 : toHex k ++ '.' :: salt ≠ [] := by simp
  simp [comparePasswordsT, hq, h1, splitDot_append (dot_not_mem_toHex k),
    splitDot_no_dot hdot, hs, toHex_ne_nil hk, fromHex_toHex]

/-! ## Claim C2 (amended): password round-trip -/

/-- C2 (amended to non-empty passwords): for a non-empty password `p`,
`verify(p, hash(p))` is true; for a different supplied password `p'`
(assuming the key-derivation function has fixed-length output and does not
collide on these inputs, as scrypt does) `verify(p', hash(p))` is false;
and for any stored value without a `.` separator, verify returns false
rather than throwing.  The salt is the random hex salt drawn by
`hashPassword` (non-empty, dot-free, as hex strings are). -/
theorem password_roundtrip (kdf : List Char → List Char → List Byte)
    (p p' salt : List Char)
    (hp : p ≠ []) (hs : salt ≠ []) (hdot : '.' ∉ salt)
    (hk : kdf p salt ≠ [])
    (hlen : (kdf p' salt).length = (kdf p salt).length)
    (hne : p' ≠ p → kdf p' salt ≠ kdf p salt) :
    (∃ h, hashPassword kdf salt p = Except.ok h
        ∧ comparePasswords kdf p h = Except.ok true)
      ∧ (p' ≠ p → ∀ h, hashPassword kdf salt p = Except.ok h →
          comparePasswords kdf p' h = Except.ok false)
      ∧ (∀ q s, '.' ∉ s → comparePasswords kdf q s = Except.ok false) := by
  have hhash : hashPassword kdf salt p
      = Except.ok (toHex (kdf p salt) ++ '.' :: salt) := by
    simp [hashPassword, hp]
  refine ⟨⟨toHex (kdf p salt) ++ '.' :: salt, hhash, ?_⟩, ?_, ?_⟩
  · rw [comparePasswords, comparePasswordsT_wellformed kdf p _ salt hp hs hdot hk]
    simp [timingSafeEqual]
  · intro hne' h hh
    rw [hhash] at hh
    obtain rfl : h = toHex (kdf p salt) ++ '.' :: salt := by
      cases hh
      rfl
    by_cases hp' : p' = []
    · simp [comparePasswords, comparePasswordsT, hp']
    · rw [comparePasswords, comparePasswordsT_wellformed kdf p' _ salt hp' hs hdot hk]
      simp only [timingSafeEqual, hlen.symm, if_pos rfl]
      simp [Ne.symm (hne hne')]
  · intro q s hsdot
    by_cases hq : q = []
    · simp [comparePasswords, comparePasswordsT, hq]
    · by_cases hs0 : s = []
      · simp [comparePasswords, comparePasswordsT, hs0]
      · simp [comparePasswords, comparePasswordsT, hq, hs0, splitDot_no_dot hsdot]

/-- Witness for C2: a concrete key-derivation stand-in, password "a",
wrong password "b", salt "cd". -/
theorem password_roundtrip_witness :
    (∃ h, hashPassword kdfDemo ['c', 'd'] ['a'] = Except.ok h
        ∧ comparePasswords kdfDemo ['a'] h = Except.ok true)
      ∧ (['b'] ≠ ['a'] → ∀ h, hashPassword kdfDemo ['c', 'd'] ['a'] = Except.ok h →
          comparePasswords kdfDemo ['b'] h = Except.ok false)
      ∧ (∀ q s, '.' ∉ s → comparePasswords kdfDemo q s = Except.ok false) :=
  password_roundtrip kdfDemo ['a'] ['b'] ['c', 'd'] (by decide) (by decide) (by decide)
    (by decide) (by decide) (by decide)

/-- Counterexample to C2 as stated for every password: `hashPassword`
rejects the empty password with a thrown error, so the round-trip property
has no hash value to hold of at `p = ""`. -/
theorem password_roundtrip_counterexample :
    ¬ ∃ h, hashPassword kdfDemo ['c', 'd'] [] = Except.ok h
        ∧ comparePasswords kdfDemo [] h = Except.ok true := by
  rintro ⟨h, hh, -⟩
  simp [hashPassword] at hh

/-! ## Claim C7: login timing behaviour -/

/-- Counterexample to C7 as stated: on the same store, a login attempt
with an unknown username ("carol") fails after zero key derivations,
while a wrong-password attempt against the existing user "alice" fails
after one — the two failure paths do not execute the same comparison
step. -/
theorem localStrategy_timing_counterexample :
    localStrategyVerify kdfDemo demoState ['c', 'a', 'r', 'o', 'l'] ['q']
        = (Except.ok none, 0)
      ∧ localStrategyVerify kdfDemo demoState ['a', 'l', 'i', 'c', 'e'] ['q']
          = (Except.ok none, 1)
      ∧ (localStrategyVerify kdfDemo demoState ['c', 'a', 'r', 'o', 'l'] ['q']).2
          ≠ (localStrategyVerify kdfDemo demoState ['a', 'l', 'i', 'c', 'e'] ['q']).2 :=
  ⟨rfl, rfl, by decide⟩

/-- C7 (amended): the password comparison runs only when the supplied
username matches an existing user.  The `!user || !(await
comparePasswords(...))` disjunction short-circuits, so the user-not-found
path fails with zero key derivations, while a login attempt against an
existing user whose stored hash is well-formed performs exactly one. -/
theorem localStrategy_comparison_only_when_found
    (kdf : List Char → List Char → List Byte) (st : State)
    (uname uname' pw : List Char) (user : User) (a b : List Char)
    (h : getUserByUsername st uname = none)
    (h' : getUserByUsername st uname' = some user)
    (hpw : pw ≠ [])
    (hsplit : user.password = a ++ '.' :: b)
    (ha : '.' ∉ a) (ha0 : a ≠ []) (hb : '.' ∉ b) (hb0 : b ≠ []) :
    localStrategyVerify kdf st uname pw = (Except.ok none, 0)
      ∧ (localStrategyVerify kdf st uname' pw).2 = 1 := by
  have hstored : a ++ '.' :: b ≠ [] := by simp
  have hT : comparePasswordsT kdf pw user.password
      = (timingSafeEqual (fromHex a) (kdf pw b), 1) := by
    rw [hsplit]
    simp [comparePasswordsT, hpw, hstored, splitDot_append ha, splitDot_no_dot hb,
      ha0, hb0]
  refine ⟨by simp [localStrategyVerify, h], ?_⟩
  cases htse : timingSafeEqual (fromHex a) (kdf pw b) with
  | error e => simp [localStrategyVerify, h', hT, htse]
  | ok bv => cases bv <;> simp [localStrategyVerify, h', hT, htse]

/-- Witness for the amended C7 at the demo store: "carol" is unknown,
"alice" exists with a well-formed stored hash. -/
theorem localStrategy_comparison_only_when_found_witness :
    localStrategyVerify kdfDemo demoState ['c', 'a', 'r', 'o', 'l'] ['q']
        = (Except.ok none, 0)
      ∧ (localStrategyVerify kdfDemo demoState ['a', 'l', 'i', 'c', 'e'] ['q']).2 = 1 :=
  localStrategy_comparison_only_when_found kdfDemo demoState
    ['c', 'a', 'r', 'o', 'l'] ['a', 'l', 'i', 'c', 'e'] ['q'] aliceUser
    (toHex (kdfDemo alicePassword aliceSalt)) aliceSalt
    rfl rfl (by decide) rfl (by decide) (by decide) (by decide) (by decide)

/-! ## Claim C8: immutability of an organization's owner -/

theorem updateOrganization_preserves_userId (st : State) (id : Nat) (p : OrgPatch)
    (hp : p.userId = none) (k : Nat) :
    (mapGet (updateOrganization st id p).2.organizationsMap k).map Organization.userId
      = (mapGet st.organizationsMap k).map Organization.userId := by
  cases hg : mapGet st.organizationsMap id with
  | none => simp [updateOrganization, hg]
  | some org =>
    simp only [updateOrganization, hg]
    rw [mapGet_mapSet]
    by_cases hk : k = id
    · subst hk
      rw [if_pos rfl, hg]
      simp [mergeOrg, hp]
    · rw [if_neg hk]

theorem saveOrganization_preserves_userId (st : State) (now : Nat)
    (ins : InsertSavedOrganization) (k : Nat) :
    (mapGet (saveOrganization st now ins).2.organizationsMap k).map Organization.userId
      = (mapGet st.organizationsMap k).map Organization.userId := by
  simp only [saveOrganization]
  split
  · rw [updateOrganization_preserves_userId _ _ _ rfl k]
  · rfl

theorem unsaveOrganization_preserves_userId (st : State) (u o k : Nat) :
    (mapGet (unsaveOrganization st u o).organizationsMap k).map Organization.userId
      = (mapGet st.organizationsMap k).map Organization.userId := by
  simp only [unsaveOrganization]
  split
  · rfl
  · split
    · split
      · rw [updateOrganization_preserves_userId _ _ _ rfl k]
      · rfl
    · rfl

theorem registerForEvent_preserves_orgs (st : State) (now : Nat)
    (auth : Option User) (eventId : Nat) :
    (registerForEvent st now auth eventId).2.organizationsMap = st.organizationsMap := by
  cases auth with
  | none => rfl
  | some user =>
    simp only [registerForEvent]
    split
    · rfl
    · split
      · rfl
      · rfl

theorem putUserProfile_preserves_orgs (st : State) (auth : Option User)
    (bn bb bi : Option String) :
    (putUserProfile st auth bn bb bi).2.organizationsMap = st.organizationsMap := by
  cases auth with
  | none => rfl
  | some user =>
    cases hg : mapGet st.usersMap user.id with
    | none => simp [putUserProfile, updateUser, hg]
    | some stored => simp [putUserProfile, updateUser, hg]

/-- C8 (amended): an organization's owning `userId` is preserved by every
public operation except a `PUT /api/organizations/:id` whose body carries
a `userId` key: follows/unfollows, event registration, profile updates,
and PUTs whose body omits `userId` never change any organization's
`userId`. -/
theorem organization_userId_immutable (st : State) (body : OrgPatch)
    (hbody : body.userId = none) :
    (∀ auth id k,
        (mapGet (putOrganization st auth id body).2.organizationsMap k).map
            Organization.userId
          = (mapGet st.organizationsMap k).map Organization.userId)
      ∧ (∀ now ins k,
          (mapGet (saveOrganization st now ins).2.organizationsMap k).map
              Organization.userId
            = (mapGet st.organizationsMap k).map Organization.userId)
      ∧ (∀ u o k,
          (mapGet (unsaveOrganization st u o).organizationsMap k).map
              Organization.userId
            = (mapGet st.organizationsMap k).map Organization.userId)
      ∧ (∀ now auth eventId,
          (registerForEvent st now auth eventId).2.organizationsMap
            = st.organizationsMap)
      ∧ (∀ auth bn bb bi,
          (putUserProfile st auth bn bb bi).2.organizationsMap
            = st.organizationsMap) := by
  refine ⟨?_, fun now ins k => saveOrganization_preserves_userId st now ins k,
    fun u o k => unsaveOrganization_preserves_userId st u o k,
    fun now auth eventId => registerForEvent_preserves_orgs st now auth eventId,
    fun auth bn bb bi => putUserProfile_preserves_orgs st auth bn bb bi⟩
  intro auth id k
  cases auth with
  | none => rfl
  | some user =>
    simp only [putOrganization]
    split
    · rfl
    · split
      · rfl
      · rw [updateOrganization_preserves_userId _ _ _ hbody k]

/-- Witness for the amended C8 at the demo store with a `userId`-free
body. -/
theorem organization_userId_immutable_witness :
    (∀ auth id k,
        (mapGet
            (putOrganization demoState auth id
              { name := some "Greener Earth" }).2.organizationsMap
            k).map Organization.userId
          = (mapGet demoState.organizationsMap k).map Organization.userId)
      ∧ (∀ now ins k,
          (mapGet (saveOrganization demoState now ins).2.organizationsMap k).map
              Organization.userId
            = (mapGet demoState.organizationsMap k).map Organization.userId)
      ∧ (∀ u o k,
          (mapGet (unsaveOrganization demoState u o).organizationsMap k).map
              Organization.userId
            = (mapGet demoState.organizationsMap k).map Organization.userId)
      ∧ (∀ now auth eventId,
          (registerForEvent demoState now auth eventId).2.organizationsMap
            = demoState.organizationsMap)
      ∧ (∀ auth bn bb bi,
          (putUserProfile demoState auth bn bb bi).2.organizationsMap
            = demoState.organizationsMap) :=
  organization_userId_immutable demoState { name := some "Greener Earth" } rfl

/-- Counterexample to C8 as stated: the owner of organization 1 PUTs a
body containing `userId: 2`; the raw body is merged, so the stored owning
user changes from 1 to 2. -/
theorem organization_userId_change_counterexample :
    (getOrganization demoState 1).map Organization.userId = some 1
      ∧ (getOrganization
            (putOrganization demoState (some aliceUser) 1 { userId := some 2 }).2
            1).map Organization.userId = some 2 :=
  ⟨rfl, rfl⟩

/-! ## Claim C1: the followers invariant -/

theorem countRowsIn_append_single (s : List (Nat × SavedOrganization)) (c : Nat)
    (row : SavedOrganization) (x : Nat) :
    countRowsIn (s ++ [(c, row)]) x
      = countRowsIn s x + (if row.organizationId = x then 1 else 0) := by
  simp only [countRowsIn, mapValues, List.map_append, List.filter_append,
    List.length_append, List.map_cons, List.map_nil]
  by_cases h : row.organizationId = x
  · simp [h, List.filter_cons]
  · simp [h, List.filter_cons]

theorem countRowsIn_delete (s : List (Nat × SavedOrganization)) (k : Nat)
    (r : SavedOrganization) (x : Nat)
    (hnd : (s.map Prod.fst).Nodup) (hmem : (k, r) ∈ s) :
    countRowsIn (mapDelete s k) x + (if r.organizationId = x then 1 else 0)
      = countRowsIn s x := by
  obtain ⟨l1, l2, h1, h2, -⟩ := mapDelete_decomp hnd hmem
  subst h1
  rw [h2]
  simp only [countRowsIn, mapValues, List.map_append, List.filter_append,
    List.length_append, List.map_cons]
  by_cases h : r.organizationId = x
  · simp [h, List.filter_cons]
    omega
  · simp [h, List.filter_cons]

theorem countRowsIn_pos {s : List (Nat × SavedOrganization)} {r : SavedOrganization}
    {o : Nat} (hr : r ∈ mapValues s) (ho : r.organizationId = o) :
    0 < countRowsIn s o := by
  have hmem : r ∈ (mapValues s).filter (fun q => q.organizationId == o) :=
    List.mem_filter.mpr ⟨hr, by simp [ho]⟩
  simpa [countRowsIn] using List.length_pos.mpr (List.ne_nil_of_mem hmem)

theorem newSavedRow_organizationId (st : State) (now u o : Nat) :
    (newSavedRow st now u o).organizationId = o := rfl

/-- One `saveOrganization` call preserves the representation invariant and
the followers invariant (the insert appends a fresh-keyed row; the
follower increment matches the one extra row when the organization
exists, and no existing organization's count changes otherwise). -/
theorem saveOrganization_step (st : State) (now u o : Nat)
    (hwf : stateWF st) (hinv : followersInvariant st) :
    stateWF (saveOrganization st now { userId := u, organizationId := o }).2
      ∧ followersInvariant (saveOrganization st now { userId := u, organizationId := o }).2 := by
  obtain ⟨⟨hoid, hond⟩, hsid, hsnd, hslt⟩ := hwf
  have hfresh : ∀ p ∈ st.savedOrganizationsMap,
      (p : Nat × SavedOrganization).1 ≠ st.savedOrgIdCounter :=
    fun p hp => Nat.ne_of_lt (hslt p hp)
  have hsavedids : ∀ p ∈ st.savedOrganizationsMap
        ++ [(st.savedOrgIdCounter, newSavedRow st now u o)],
      (p : Nat × SavedOrganization).2.id = p.1 := by
    intro p hp
    rcases List.mem_append.mp hp with hp1 | hp2
    · exact hsid p hp1
    · simp only [List.mem_singleton] at hp2
      subst hp2
      rfl
  have hsavednd : ((st.savedOrganizationsMap
        ++ [(st.savedOrgIdCounter, newSavedRow st now u o)]).map Prod.fst).Nodup := by
    rw [List.map_append]
    refine List.Nodup.append hsnd (by simp) ?_
    intro a ha hb
    simp only [List.map_cons, List.map_nil, List.mem_singleton] at hb
    subst hb
    obtain ⟨p, hp, hpa⟩ := List.mem_map.mp ha
    exact absurd (hpa ▸ hslt p hp) (lt_irrefl _)
  have hsavedlt : ∀ p ∈ st.savedOrganizationsMap
        ++ [(st.savedOrgIdCounter, newSavedRow st now u o)],
      (p : Nat × SavedOrganization).1 < st.savedOrgIdCounter + 1 := by
    intro p hp
    rcases List.mem_append.mp hp with hp1 | hp2
    · exact Nat.lt_trans (hslt p hp1) (Nat.lt_succ_self _)
    · simp only [List.mem_singleton] at hp2
      subst hp2
      exact Nat.lt_succ_self _
  cases hg : mapGet st.organizationsMap o with
  | none =>
    have hres : (saveOrganization st now { userId := u, organizationId := o }).2
        = { st with
            savedOrgIdCounter := st.savedOrgIdCounter + 1,
            savedOrganizationsMap := st.savedOrganizationsMap
              ++ [(st.savedOrgIdCounter, newSavedRow st now u o)] } := by
      simp [saveOrganization, getOrganization, hg, mapSet_fresh hfresh, newSavedRow]
    rw [hres]
    refine ⟨⟨⟨hoid, hond⟩, hsavedids, hsavednd, hsavedlt⟩, ?_⟩
    intro p hp
    have hpo : p.1 ≠ o := mapGet_eq_none.mp hg p hp
    have hpid := hoid p hp
    show p.2.followers
      = countRowsIn (st.savedOrganizationsMap
          ++ [(st.savedOrgIdCounter, newSavedRow st now u o)]) p.2.id
    rw [countRowsIn_append_single, newSavedRow_organizationId]
    have hne : ¬ (o = p.2.id) := by
      rw [hpid]
      exact fun hh => hpo hh.symm
    rw [if_neg hne, Nat.add_zero]
    exact hinv p hp
  | some org =>
    have hom : (o, org) ∈ st.organizationsMap := mapGet_some_mem hg
    have horgid : org.id = o := hoid _ hom
    have hko : o ∈ st.organizationsMap.map Prod.fst := by
      have := List.mem_map_of_mem Prod.fst hom
      simpa using this
    have hres : (saveOrganization st now { userId := u, organizationId := o }).2
        = { st with
            savedOrgIdCounter := st.savedOrgIdCounter + 1,
            savedOrganizationsMap := st.savedOrganizationsMap
              ++ [(st.savedOrgIdCounter, newSavedRow st now u o)],
            organizationsMap := mapSet st.organizationsMap o
              { org with followers := org.followers + 1 } } := by
      simp [saveOrganization, getOrganization, updateOrganization, hg,
        mapSet_fresh hfresh, horgid, mergeOrg, newSavedRow]
    rw [hres]
    constructor
    · refine ⟨⟨?_, ?_⟩, hsavedids, hsavednd, hsavedlt⟩
      · intro p hp
        rcases mem_mapSet_of_nodup hond hp with rfl | ⟨hpm, -⟩
        · exact horgid
        · exact hoid p hpm
      · rw [keys_mapSet_of_mem hko]
        exact hond
    · intro p hp
      rcases mem_mapSet_of_nodup hond hp with rfl | ⟨hpm, hne⟩
      · show org.followers + 1
          = countRowsIn (st.savedOrganizationsMap
              ++ [(st.savedOrgIdCounter, newSavedRow st now u o)]) org.id
        rw [countRowsIn_append_single, newSavedRow_organizationId]
        rw [if_pos horgid.symm]
        have hfoll : org.followers = countRowsIn st.savedOrganizationsMap org.id :=
          hinv _ hom
        omega
      · have hpid := hoid p hpm
        show p.2.followers
          = countRowsIn (st.savedOrganizationsMap
              ++ [(st.savedOrgIdCounter, newSavedRow st now u o)]) p.2.id
        rw [countRowsIn_append_single, newSavedRow_organizationId]
        have hneif : ¬ (o = p.2.id) := by
          rw [hpid]
          exact fun hh => hne hh.symm
        rw [if_neg hneif, Nat.add_zero]
        exact hinv p hpm

/-- One `unsaveOrganization` call preserves the representation invariant
and the followers invariant (a found row is removed and the matching
decrement fires exactly when the organization exists, whose counter is
then positive; otherwise nothing changes). -/
theorem unsaveOrganization_step (st : State) (u o : Nat)
    (hwf : stateWF st) (hinv : followersInvariant st) :
    stateWF (unsaveOrganization st u o) ∧ followersInvariant (unsaveOrganization st u o) := by
  obtain ⟨⟨hoid, hond⟩, hsid, hsnd, hslt⟩ := hwf
  cases hf : (mapValues st.savedOrganizationsMap).find?
      (fun saved => saved.userId == u && saved.organizationId == o) with
  | none =>
    have hres : unsaveOrganization st u o = st := by
      simp [unsaveOrganization, hf]
    rw [hres]
    exact ⟨⟨⟨hoid, hond⟩, hsid, hsnd, hslt⟩, hinv⟩
  | some savedOrg =>
    have hmemv : savedOrg ∈ mapValues st.savedOrganizationsMap :=
      List.mem_of_find?_eq_some hf
    have hprop := List.find?_some hf
    have horow : savedOrg.organizationId = o := by
      simp only [Bool.and_eq_true, beq_iff_eq] at hprop
      exact hprop.2
    obtain ⟨q, hqmem, hq2⟩ := List.mem_map.mp hmemv
    have hkid : savedOrg.id = q.1 := by
      rw [← hq2]
      exact hsid q hqmem
    have hmementry : (savedOrg.id, savedOrg) ∈ st.savedOrganizationsMap := by
      rw [hkid, ← hq2]
      exact hqmem
    obtain ⟨l1, l2, hdec, hdel, -⟩ := mapDelete_decomp hsnd hmementry
    have hdelsub : ∀ p ∈ mapDelete st.savedOrganizationsMap savedOrg.id,
        p ∈ st.savedOrganizationsMap := by
      intro p hp
      rw [hdel] at hp
      rw [hdec]
      rcases List.mem_append.mp hp with h1 | h2
      · exact List.mem_append.mpr (Or.inl h1)
      · exact List.mem_append.mpr (Or.inr (List.mem_cons_of_mem _ h2))
    have hdelnd : ((mapDelete st.savedOrganizationsMap savedOrg.id).map Prod.fst).Nodup := by
      rw [hdel]
      have hsub : (l1 ++ l2).Sublist st.savedOrganizationsMap := by
        rw [hdec]
        exact ((List.Sublist.refl l2).cons _).append_left l1
      exact List.Nodup.sublist (hsub.map Prod.fst) hsnd
    cases hg : mapGet st.organizationsMap o with
    | none =>
      have hres : unsaveOrganization st u o
          = { st with savedOrganizationsMap :=
                mapDelete st.savedOrganizationsMap savedOrg.id } := by
        simp [unsaveOrganization, hf, getOrganization, hg]
      rw [hres]
      refine ⟨⟨⟨hoid, hond⟩, ?_, hdelnd, ?_⟩, ?_⟩
      · exact fun p hp => hsid p (hdelsub p hp)
      · exact fun p hp => hslt p (hdelsub p hp)
      · intro p hp
        have hpid := hoid p hp
        have hpo : p.1 ≠ o := mapGet_eq_none.mp hg p hp
        show p.2.followers
          = countRowsIn (mapDelete st.savedOrganizationsMap savedOrg.id) p.2.id
        have hcd := countRowsIn_delete st.savedOrganizationsMap savedOrg.id savedOrg
          p.2.id hsnd hmementry
        have hneif : ¬ (savedOrg.organizationId = p.2.id) := by
          rw [horow, hpid]
          exact fun hh => hpo hh.symm
        rw [if_neg hneif, Nat.add_zero] at hcd
        rw [hcd]
        exact hinv p hp
    | some org =>
      have hom : (o, org) ∈ st.organizationsMap := mapGet_some_mem hg
      have horgid : org.id = o := hoid _ hom
      have hko : o ∈ st.organizationsMap.map Prod.fst := by
        have := List.mem_map_of_mem Prod.fst hom
        simpa using this
      have hfoll : org.followers = countRowsIn st.savedOrganizationsMap org.id :=
        hinv _ hom
      have hpos : 0 < org.followers := by
        rw [hfoll]
        exact countRowsIn_pos hmemv (by rw [horow, horgid])
      have hres : unsaveOrganization st u o
          = { st with
              savedOrganizationsMap := mapDelete st.savedOrganizationsMap savedOrg.id,
              organizationsMap := mapSet st.organizationsMap o
                { org with followers := org.followers - 1 } } := by
        simp [unsaveOrganization, hf, getOrganization, hg, hpos, updateOrganization,
          horgid, mergeOrg]
      rw [hres]
      constructor
      · refine ⟨⟨?_, ?_⟩, ?_, hdelnd, ?_⟩
        · intro p hp
          rcases mem_mapSet_of_nodup hond hp with rfl | ⟨hpm, -⟩
          · exact horgid
          · exact hoid p hpm
        · rw [keys_mapSet_of_mem hko]
          exact hond
        · exact fun p hp => hsid p (hdelsub p hp)
        · exact fun p hp => hslt p (hdelsub p hp)
      · intro p hp
        rcases mem_mapSet_of_nodup hond hp with rfl | ⟨hpm, hne⟩
        · show org.followers - 1
            = countRowsIn (mapDelete st.savedOrganizationsMap savedOrg.id) org.id
          have hcd := countRowsIn_delete st.savedOrganizationsMap savedOrg.id savedOrg
            org.id hsnd hmementry
          rw [if_pos (show savedOrg.organizationId = org.id by rw [horow, horgid])] at hcd
          omega
        · have hpid := hoid p hpm
          show p.2.followers
            = countRowsIn (mapDelete st.savedOrganizationsMap savedOrg.id) p.2.id
          have hcd := countRowsIn_delete st.savedOrganizationsMap savedOrg.id savedOrg
            p.2.id hsnd hmementry
          have hneif : ¬ (savedOrg.organizationId = p.2.id) := by
            rw [horow, hpid]
            exact fun hh => hne hh.symm
          rw [if_neg hneif, Nat.add_zero] at hcd
          rw [hcd]
          exact hinv p hpm

theorem followers_invariant_fold (ops : List SaveOp) :
    ∀ st : State, stateWF st → followersInvariant st →
      stateWF (List.foldl applyOp st ops)
        ∧ followersInvariant (List.foldl applyOp st ops) := by
  induction ops with
  | nil => exact fun st hwf hinv => ⟨hwf, hinv⟩
  | cons op rest ih =>
    intro st hwf hinv
    have hstep : stateWF (applyOp st op) ∧ followersInvariant (applyOp st op) := by
      cases op with
      | save now u o => exact saveOrganization_step st now u o hwf hinv
      | unsave u o => exact unsaveOrganization_step st u o hwf hinv
    exact ih (applyOp st op) hstep.1 hstep.2

/-- C1: starting from a well-formed state in which every organization's
`followers` equals its number of SavedOrganization rows, any sequence of
`saveOrganization`/`unsaveOrganization` calls satisfying the
caller-enforced preconditions (target organization exists, pair saved at
most once) again ends in a state satisfying the followers invariant.  (The
proof in fact never needs the preconditions: the store maintains the
invariant under arbitrary save/unsave sequences.) -/
theorem followers_invariant_preserved (ops : List SaveOp) (st : State)
    (hwf : stateWF st) (hinv : followersInvariant st) (hops : opsValid st ops) :
    followersInvariant (List.foldl applyOp st ops) :=
  (followers_invariant_fold ops st hwf hinv).2

/-- Witness for C1: follow then unfollow Green Earth in the demo store. -/
theorem followers_invariant_preserved_witness :
    followersInvariant (List.foldl applyOp demoState
      [SaveOp.save 100 7 1, SaveOp.unsave 7 1]) :=
  followers_invariant_preserved [SaveOp.save 100 7 1, SaveOp.unsave 7 1] demoState
    (by decide) (by decide) ⟨⟨by decide, by decide⟩, trivial, trivial⟩

end Civvi
